import Mathlib

/-!
Verification of the layout algorithm in
`packages/python/plotly/plotly/figure_factory/_phylogenetic_tree.py`.

The program parses a Newick string into a Bio.Phylo tree of clades and then
computes, in `_Phylogenetic_Tree.get_phylo_tree_traces`, a list of scatter
traces (one per parent-child edge), the flattened depth values `xvals`, the
flattened rank values `yvals`, and two identical leaf-name sequences
(`ordered_labels` and `self.leaves`).

The shallow embedding below mirrors that code:
- a `Clade` is a node with an optional name, an optional branch length and an
  ordered list of child clades (Bio.Phylo's data model after parsing);
- `levelOrder` is Bio.Phylo's `find_clades(order="level")` breadth-first
  traversal (a queue: pop a node, yield it, push its children);
- `truthyBL` models the Python expression `bl if bl else 0` (both a missing
  branch length and an explicit branch length of 0 are falsy and give 0);
- `pyTruthy` models Python truthiness of an optional name (None and the empty
  string are falsy);
- `pyIndex` models `list.index`, returning `none` where Python raises
  `ValueError` (which aborts the whole computation, hence the `Option` result
  of `get_phylo_tree_traces`);
- `yval` models `len(self.leaves) - self.leaves.index(name) if name else 0`;
- `get_phylo_tree_traces` assembles the full result exactly as the source:
  leaves are collected from the level-order traversal first, then for every
  clade in level order and every child a single two-point trace is emitted,
  with `x=[y, y_sub], y=[x0, x1]` unless the orientation is "top" or "bottom",
  in which case `x=[x0, x1], y=[y, y_sub]`.

Rationals stand in for Python floats; all inputs of interest carry exact
decimal branch lengths, so no rounding behaviour is lost.
-/

inductive Clade where
  | mk (name : Option String) (branch_length : Option Rat) (clades : List Clade)
deriving Repr

def Clade.name : Clade → Option String
  | .mk n _ _ => n

def Clade.branch_length : Clade → Option Rat
  | .mk _ b _ => b

def Clade.clades : Clade → List Clade
  | .mk _ _ cs => cs

theorem sum_sizeOf_le (cs : List Clade) : (cs.map sizeOf).sum ≤ sizeOf cs := by
  induction cs with
  | nil => simp
  | cons c cs ih =>
      simp only [List.map_cons, List.sum_cons, List.cons.sizeOf_spec]
      omega

/-- Breadth-first traversal over a queue of clades, as in Bio.Phylo's
`_level_traverse`: pop the first clade, yield it, append its children. -/
def levelOrderAux : List Clade → List Clade
  | [] => []
  | .mk n b cs :: rest => .mk n b cs :: levelOrderAux (rest ++ cs)
termination_by q => (q.map sizeOf).sum
decreasing_by
  simp only [List.map_append, List.sum_append, List.map_cons, List.sum_cons,
    Clade.mk.sizeOf_spec]
  have h := sum_sizeOf_le cs
  omega

/-- `tree.find_clades(order="level")`: level-order enumeration from the root. -/
def levelOrder (t : Clade) : List Clade := levelOrderAux [t]

/-- Python truthiness of an optional name: `None` and `""` are falsy. -/
def pyTruthy : Option String → Bool
  | none => false
  | some s => !s.isEmpty

/-- The Python expression `bl if bl else 0`: a missing branch length and an
explicit branch length `0` are both falsy and yield `0`. -/
def truthyBL : Option Rat → Rat
  | none => 0
  | some b => if b = 0 then 0 else b

/-- `list.index` on the leaf-name list: index of the first occurrence, `none`
where Python raises `ValueError`. -/
def pyIndex (a : Option String) : List (Option String) → Option Nat
  | [] => none
  | b :: l => if b = a then some 0 else (pyIndex a l).map (· + 1)

/-- The leaf-name list built by the first loop of `get_phylo_tree_traces`:
names of terminal clades in level order (`is_terminal()` means no children);
it is stored both in `self.leaves` and in `ordered_labels`. -/
def leafNamesOf (t : Clade) : List (Option String) :=
  ((levelOrder t).filter fun c => c.clades.isEmpty).map Clade.name

/-- The rank coordinate of a clade:
`len(self.leaves) - self.leaves.index(clade.name) if clade.name else 0`. -/
def yval (leaves : List (Option String)) (c : Clade) : Option Rat :=
  if pyTruthy c.name then
    (pyIndex c.name leaves).map fun (i : Nat) =>
      (leaves.length : Rat) - (i : Rat)
  else some 0

structure EdgeCoords where
  x0 : Rat
  x1 : Rat
  y : Rat
  ysub : Rat
deriving Repr

/-- The four per-edge quantities of the inner loop: `x0`, `x1`, `y`, `y_sub`. -/
def edgeCoords (leaves : List (Option String)) (p : Clade × Clade) :
    Option EdgeCoords :=
  (yval leaves p.1).bind fun y =>
    (yval leaves p.2).map fun ysub =>
      { x0 := truthyBL p.1.branch_length
        x1 := truthyBL p.1.branch_length + truthyBL p.2.branch_length
        y := y
        ysub := ysub }

/-- Edge coordinates for every parent-child pair in turn; a `ValueError` on any
edge aborts the whole computation. -/
def coordsList (leaves : List (Option String)) :
    List (Clade × Clade) → Option (List EdgeCoords)
  | [] => some []
  | p :: ps =>
      (edgeCoords leaves p).bind fun e =>
        (coordsList leaves ps).map fun es => e :: es

structure Trace where
  x : List Rat
  y : List Rat
deriving Repr, DecidableEq

/-- The scatter trace built for one edge:
`x=[x0, x1] if orientation in ["top", "bottom"] else [y, y_sub]` and
symmetrically for `y`. -/
def coordTrace (orientation : String) (e : EdgeCoords) : Trace :=
  if orientation = "top" ∨ orientation = "bottom" then
    { x := [e.x0, e.x1], y := [e.y, e.ysub] }
  else
    { x := [e.y, e.ysub], y := [e.x0, e.x1] }

/-- The (clade, subclade) pairs visited by the nested loops: every clade in
level order paired with each of its children in order. -/
def edgePairs (t : Clade) : List (Clade × Clade) :=
  (levelOrder t).flatMap fun c => c.clades.map fun sub => (c, sub)

structure PhyloResult where
  trace_list : List Trace
  xvals : List Rat
  yvals : List Rat
  ordered_labels : List (Option String)
  leaves : List (Option String)
deriving Repr

/-- The full computation of `get_phylo_tree_traces`: collect leaf names in
level order, then one trace per edge, accumulating `xvals` as `[x0, x1]` and
`yvals` as `[y, y_sub]` per edge; `ordered_labels` and `leaves` are the same
list. `none` models an uncaught `ValueError` from `list.index`. -/
def get_phylo_tree_traces (orientation : String) (tree : Clade) :
    Option PhyloResult :=
  match coordsList (leafNamesOf tree) (edgePairs tree) with
  | none => none
  | some es =>
      some
        { trace_list := es.map (coordTrace orientation)
          xvals := es.flatMap fun e => [e.x0, e.x1]
          yvals := es.flatMap fun e => [e.y, e.ysub]
          ordered_labels := leafNamesOf tree
          leaves := leafNamesOf tree }

/-- The x-axis entry of the sign table set in `__init__`:
`1 if orientation in ["left", "bottom"] else -1`. It is used only for axis
tick metadata, never applied to trace coordinates. -/
def sign_x (orientation : String) : Int :=
  if orientation = "left" ∨ orientation = "bottom" then 1 else -1

/-- The y-axis entry of the sign table set in `__init__`:
`1 if orientation in ["right", "bottom"] else -1`. -/
def sign_y (orientation : String) : Int :=
  if orientation = "right" ∨ orientation = "bottom" then 1 else -1

/-! Definitions taken from the specification's wording, used to state the
claims that compare the code with the spec (cumulative depths, depth-first
leaf order, mean rank), and, for the unclassified-clade claim, a model of the
preprocessing and emission that the spec describes but that is absent from
the source tree. -/

/-- The spec's branch-length default: a missing length counts as 1, an
explicit 0 stays 0. -/
def blOr1 : Option Rat → Rat
  | none => 1
  | some b => b

mutual
/-- Depths as the claim states them: each node's depth is the sum of branch
lengths (missing counted as 1) along the path from the root, the node's own
incoming edge included; `d` is the depth of the parent. -/
def specDepthsFrom (d : Rat) : Clade → List (Option String × Rat)
  | .mk n b cs => (n, d + blOr1 b) :: specDepthsL (d + blOr1 b) cs
def specDepthsL (d : Rat) : List Clade → List (Option String × Rat)
  | [] => []
  | c :: cs => specDepthsFrom d c ++ specDepthsL d cs
end

/-- Depth of every node per the claim, the root fixed at depth 0. -/
def specDepthsRoot (t : Clade) : List (Option String × Rat) :=
  (t.name, 0) :: specDepthsL 0 t.clades

mutual
/-- Leaf names in the order a depth-first traversal of children in their
given order reaches them, as the claim states. -/
def dfsLeafNames : Clade → List (Option String)
  | .mk n _ [] => [n]
  | .mk _ _ (c :: cs) => dfsLeafL (c :: cs)
def dfsLeafL : List Clade → List (Option String)
  | [] => []
  | c :: cs => dfsLeafNames c ++ dfsLeafL cs
end

/-- Arithmetic mean of a list of rationals. -/
def ratMean (l : List Rat) : Rat := l.sum / (l.length : Rat)

/-- Closed form of the rank the code assigns to a name: `N - index` for a
truthy name found among the leaf names, 0 otherwise. -/
def rankFormula (leaves : List (Option String)) (n : Option String) : Rat :=
  if pyTruthy n then
    match pyIndex n leaves with
    | some i => (leaves.length : Rat) - (i : Rat)
    | none => 0
  else 0

mutual
/-- Number of terminal nodes of a clade, structurally. -/
def countLeavesC : Clade → Nat
  | .mk _ _ [] => 1
  | .mk _ _ (c :: cs) => countLeavesL (c :: cs)
def countLeavesL : List Clade → Nat
  | [] => 0
  | c :: cs => countLeavesC c + countLeavesL cs
end

inductive Primitive where
  | marker (depth rank : Rat) (label : Option String) (isLeaf : Bool)
  | seg (d0 r0 d1 r1 : Rat)
deriving Repr

/-- Whether a clade is the root's "unclassified" child. -/
def isUncl (c : Clade) : Bool := c.name = some "unclassified"

/-- Modelled from the spec: the unclassified extraction of the Tree
Preprocessor, which is not present in the source file. If the root has a
direct child named "unclassified", remove it from the root's children and
splice that child's own children directly into the root's child list,
preserving their relative order, appended after the existing siblings; the
extracted node is set aside with an empty child list. Only the first match
among the root's immediate children is extracted. -/
def extractUnclassified (root : Clade) : Clade × Option Clade :=
  match root.clades.find? isUncl with
  | none => (root, none)
  | some u =>
      (.mk root.name root.branch_length
          ((root.clades.eraseP isUncl) ++ u.clades),
       some (.mk u.name u.branch_length []))

/-- Modelled from the spec: the two-segment elbow connectors from a parent at
depth `d` and rank `rk` to children with (rank, depth) pairs `rds` - one
segment along the rank axis at the parent's depth, one along the depth axis
at the child's rank. -/
def elbows (d rk : Rat) (rds : List (Rat × Rat)) : List Primitive :=
  rds.flatMap fun rd => [.seg d rk d rd.1, .seg d rd.1 rd.2 rd.1]

mutual
/-- Modelled from the spec: the Coordinate Engine and Trace Emitter for one
node, absent from the source file. `d` is the node's own depth (path sum of
branch lengths, missing counted as 1, fixed at 0 for the root by the
caller), `off` the rank of the next unplaced leaf. A leaf gets rank `off`;
an internal node gets the arithmetic mean of its children's ranks. Returns
the primitives of the subtree, the node's rank and the number of leaves in
the subtree. -/
def specEmit (d : Rat) (off : Nat) : Clade → List Primitive × Rat × Nat
  | .mk n _ [] => ([.marker d (off : Rat) n true], ((off : Rat), 1))
  | .mk n _ (c :: cs) =>
      let r := specEmitChildren d off (c :: cs)
      let rk := ratMean (r.2.1.map Prod.fst)
      (Primitive.marker d rk n false :: (elbows d rk r.2.1 ++ r.1),
        (rk, r.2.2))
/-- Modelled from the spec: process the children of a node at depth `d` left
to right, threading the leaf-rank offset; returns their primitives, their
(rank, depth) pairs in order, and the number of leaves consumed. -/
def specEmitChildren (d : Rat) (off : Nat) :
    List Clade → List Primitive × List (Rat × Rat) × Nat
  | [] => ([], ([], 0))
  | c :: cs =>
      let dc := d + blOr1 c.branch_length
      let r1 := specEmit dc off c
      let r2 := specEmitChildren d (off + r1.2.2) cs
      (r1.1 ++ r2.1, ((r1.2.1, dc) :: r2.2.1, r1.2.2 + r2.2.2))
end

/-- Modelled from the spec: the whole layout run - extract the unclassified
child of the root if present, emit the main tree from depth 0, then append
one extra marker for the unclassified node at depth 0 and rank one below the
root's rank, with no connecting branch segment. Returns the primitives and
the root's rank. -/
def specLayout (root : Clade) : List Primitive × Rat :=
  let er := extractUnclassified root
  let m := specEmit 0 0 er.1
  match er.2 with
  | none => (m.1, m.2.1)
  | some u => (m.1 ++ [.marker 0 (m.2.1 - 1) u.name true], m.2.1)

mutual
/-- Names of all nodes of a clade in preorder. -/
def preNames : Clade → List (Option String)
  | .mk n _ cs => n :: preNamesL cs
def preNamesL : List Clade → List (Option String)
  | [] => []
  | c :: cs => preNames c ++ preNamesL cs
end

/-- Labels of the markers of a primitive list, in order. -/
def markerLabels : List Primitive → List (Option String)
  | [] => []
  | .marker _ _ l _ :: ps => l :: markerLabels ps
  | .seg _ _ _ _ :: ps => markerLabels ps

/-! Concrete trees used by the claims' scenarios. -/

/-- Leaf A with branch length 1. -/
def cladeA : Clade := .mk (some "A") (some 1) []

/-- Leaf B with branch length 2. -/
def cladeB : Clade := .mk (some "B") (some 2) []

/-- Leaf C with branch length 3. -/
def cladeC3 : Clade := .mk (some "C") (some 3) []

/-- The 3-leaf polytomous tree of the concrete scenario: `(A:1,B:2,C:3):0;`. -/
def T2 : Clade := .mk none (some 0) [cladeA, cladeB, cladeC3]

/-- A chain `(((A:1):2):4):0;` with unnamed internal nodes, whose leaf A has
cumulative path depth 4 + 2 + 1 = 7. -/
def T1 : Clade :=
  .mk none (some 0) [.mk none (some 4) [.mk none (some 2) [cladeA]]]

/-- The tree `((A:1,B:1):1,C:1):0;`, whose depth-first leaf order A, B, C
differs from its level-order leaf order C, A, B. -/
def T3 : Clade :=
  .mk none (some 0)
    [.mk none (some 1) [.mk (some "A") (some 1) [], .mk (some "B") (some 1) []],
     .mk (some "C") (some 1) []]

/-- The result the embedded code computes for `T2` with orientation "right". -/
def resT2 : PhyloResult :=
  { trace_list := [⟨[0, 3], [0, 1]⟩, ⟨[0, 2], [0, 2]⟩, ⟨[0, 1], [0, 3]⟩]
    xvals := [0, 1, 0, 2, 0, 3]
    yvals := [0, 3, 0, 2, 0, 1]
    ordered_labels := [some "A", some "B", some "C"]
    leaves := [some "A", some "B", some "C"] }

/-- The result the embedded code computes for `T1` with orientation "right". -/
def resT1 : PhyloResult :=
  { trace_list := [⟨[0, 0], [0, 4]⟩, ⟨[0, 0], [4, 6]⟩, ⟨[0, 1], [2, 3]⟩]
    xvals := [0, 4, 4, 6, 2, 3]
    yvals := [0, 0, 0, 0, 0, 1]
    ordered_labels := [some "A"]
    leaves := [some "A"] }

/-- The result the embedded code computes for `T3` with orientation "right". -/
def resT3 : PhyloResult :=
  { trace_list := [⟨[0, 0], [0, 1]⟩, ⟨[0, 3], [0, 1]⟩, ⟨[0, 2], [1, 2]⟩,
      ⟨[0, 1], [1, 2]⟩]
    xvals := [0, 1, 0, 1, 1, 2, 1, 2]
    yvals := [0, 0, 0, 3, 0, 2, 0, 1]
    ordered_labels := [some "C", some "A", some "B"]
    leaves := [some "C", some "A", some "B"] }

/-- Leaf B with branch length 1, for the unclassified scenario. -/
def cladeB1 : Clade := .mk (some "B") (some 1) []

/-- Leaf X, a child of the unclassified clade. -/
def cladeX : Clade := .mk (some "X") (some 1) []

/-- Leaf Y, a child of the unclassified clade. -/
def cladeY : Clade := .mk (some "Y") (some 1) []

/-- The unclassified clade with children X and Y. -/
def cladeU : Clade := .mk (some "unclassified") none [cladeX, cladeY]

/-- A root with children A, B and unclassified, the spec's scenario. -/
def TUroot : Clade := .mk (some "root") none [cladeA, cladeB1, cladeU]

/-! Evaluation lemmas for the concrete trees and structural lemmas about the
embedded computation, shared by the claim theorems below. -/

theorem eval_T2 : get_phylo_tree_traces "right" T2 = some resT2 := by
  have h1 : pyTruthy (some "A") = true := by decide
  have h2 : pyTruthy (some "B") = true := by decide
  have h3 : pyTruthy (some "C") = true := by decide
  have h4 : pyTruthy (none : Option String) = false := by decide
  have h5 : pyIndex (some "A") [some "A", some "B", some "C"] = some 0 := by
    decide
  have h6 : pyIndex (some "B") [some "A", some "B", some "C"] = some 1 := by
    decide
  have h7 : pyIndex (some "C") [some "A", some "B", some "C"] = some 2 := by
    decide
  norm_num [get_phylo_tree_traces, coordsList, edgeCoords, yval,
    truthyBL, leafNamesOf, levelOrder, levelOrderAux, edgePairs,
    coordTrace, T2, cladeA, cladeB, cladeC3, Clade.name, Clade.branch_length,
    Clade.clades, resT2, h1, h2, h3, h4, h5, h6, h7]
  exact ⟨by decide, by decide⟩

theorem eval_T1 : get_phylo_tree_traces "right" T1 = some resT1 := by
  have h1 : pyTruthy (some "A") = true := by decide
  have h4 : pyTruthy (none : Option String) = false := by decide
  have h5 : pyIndex (some "A") [some "A"] = some 0 := by decide
  norm_num [get_phylo_tree_traces, coordsList, edgeCoords, yval,
    truthyBL, leafNamesOf, levelOrder, levelOrderAux, edgePairs,
    coordTrace, T1, cladeA, Clade.name, Clade.branch_length,
    Clade.clades, resT1, h1, h4, h5]
  exact ⟨by decide, by decide⟩

theorem eval_T3 : get_phylo_tree_traces "right" T3 = some resT3 := by
  have h1 : pyTruthy (some "A") = true := by decide
  have h2 : pyTruthy (some "B") = true := by decide
  have h3 : pyTruthy (some "C") = true := by decide
  have h4 : pyTruthy (none : Option String) = false := by decide
  have h5 : pyIndex (some "A") [some "C", some "A", some "B"] = some 1 := by
    decide
  have h6 : pyIndex (some "B") [some "C", some "A", some "B"] = some 2 := by
    decide
  have h7 : pyIndex (some "C") [some "C", some "A", some "B"] = some 0 := by
    decide
  norm_num [get_phylo_tree_traces, coordsList, edgeCoords, yval,
    truthyBL, leafNamesOf, levelOrder, levelOrderAux, edgePairs,
    coordTrace, T3, Clade.name, Clade.branch_length,
    Clade.clades, resT3, h1, h2, h3, h4, h5, h6, h7]
  exact ⟨by decide, by decide⟩

theorem get_eq_some {o : String} {t : Clade} {res : PhyloResult}
    (h : get_phylo_tree_traces o t = some res) :
    ∃ es, coordsList (leafNamesOf t) (edgePairs t) = some es
      ∧ res.trace_list = es.map (coordTrace o)
      ∧ res.xvals = es.flatMap (fun e => [e.x0, e.x1])
      ∧ res.yvals = es.flatMap (fun e => [e.y, e.ysub])
      ∧ res.ordered_labels = leafNamesOf t
      ∧ res.leaves = leafNamesOf t := by
  unfold get_phylo_tree_traces at h
  split at h
  · exact Option.noConfusion h
  · next es hes =>
      injection h with h
      subst h
      exact ⟨es, hes, rfl, rfl, rfl, rfl, rfl⟩

theorem coordsList_length {leaves : List (Option String)} :
    ∀ {ps : List (Clade × Clade)} {es : List EdgeCoords},
      coordsList leaves ps = some es → es.length = ps.length := by
  intro ps
  induction ps with
  | nil =>
      intro es h
      simp only [coordsList, Option.some.injEq] at h
      subst h
      rfl
  | cons p ps ih =>
      intro es h
      simp only [coordsList, Option.bind_eq_some, Option.map_eq_some'] at h
      obtain ⟨e, _, es', hes', rfl⟩ := h
      simp [ih hes']

theorem edgeCoords_some {leaves : List (Option String)} {p : Clade × Clade}
    {e : EdgeCoords} (h : edgeCoords leaves p = some e) :
    e.x0 = truthyBL p.1.branch_length
    ∧ e.x1 = truthyBL p.1.branch_length + truthyBL p.2.branch_length
    ∧ yval leaves p.1 = some e.y ∧ yval leaves p.2 = some e.ysub := by
  unfold edgeCoords at h
  simp only [Option.bind_eq_some, Option.map_eq_some'] at h
  obtain ⟨y, hy, ysub, hysub, rfl⟩ := h
  exact ⟨rfl, rfl, hy, hysub⟩

theorem coordsList_xvals {leaves : List (Option String)} :
    ∀ {ps : List (Clade × Clade)} {es : List EdgeCoords},
      coordsList leaves ps = some es →
      es.flatMap (fun e => [e.x0, e.x1]) =
        ps.flatMap (fun p => [truthyBL p.1.branch_length,
          truthyBL p.1.branch_length + truthyBL p.2.branch_length]) := by
  intro ps
  induction ps with
  | nil =>
      intro es h
      simp only [coordsList, Option.some.injEq] at h
      subst h
      rfl
  | cons p ps ih =>
      intro es h
      simp only [coordsList, Option.bind_eq_some, Option.map_eq_some'] at h
      obtain ⟨e, he, es', hes', rfl⟩ := h
      obtain ⟨hx0, hx1, _, _⟩ := edgeCoords_some he
      simp [hx0, hx1, ih hes']

theorem yval_eq_rankFormula {leaves : List (Option String)} {c : Clade}
    {y : Rat} (h : yval leaves c = some y) :
    y = rankFormula leaves c.name := by
  unfold yval at h
  unfold rankFormula
  by_cases ht : pyTruthy c.name
  · rw [if_pos ht] at h
    rw [if_pos ht]
    cases hp : pyIndex c.name leaves with
    | none => rw [hp] at h; simp at h
    | some i =>
        rw [hp] at h
        simp only [Option.map_some', Option.some.injEq] at h
        exact h.symm
  · rw [if_neg ht] at h
    rw [if_neg ht]
    injection h with h
    exact h.symm

theorem coordsList_yvals {leaves : List (Option String)} :
    ∀ {ps : List (Clade × Clade)} {es : List EdgeCoords},
      coordsList leaves ps = some es →
      es.flatMap (fun e => [e.y, e.ysub]) =
        ps.flatMap (fun p =>
          [rankFormula leaves p.1.name, rankFormula leaves p.2.name]) := by
  intro ps
  induction ps with
  | nil =>
      intro es h
      simp only [coordsList, Option.some.injEq] at h
      subst h
      rfl
  | cons p ps ih =>
      intro es h
      simp only [coordsList, Option.bind_eq_some, Option.map_eq_some'] at h
      obtain ⟨e, he, es', hes', rfl⟩ := h
      obtain ⟨_, _, hy, hysub⟩ := edgeCoords_some he
      simp [yval_eq_rankFormula hy, yval_eq_rankFormula hysub, ih hes']

theorem countLeavesL_eq_sum (l : List Clade) :
    countLeavesL l = (l.map countLeavesC).sum := by
  induction l with
  | nil => rfl
  | cons c cs ih => simp [countLeavesL, ih]

theorem countLeavesC_node (n : Option String) (b : Option Rat)
    (cs : List Clade) :
    countLeavesC (.mk n b cs) =
      if cs.isEmpty then 1 else (cs.map countLeavesC).sum := by
  cases cs with
  | nil => rfl
  | cons c cs => simp [countLeavesC, countLeavesL_eq_sum]

theorem levelOrderAux_leaf_count (q : List Clade) :
    ((levelOrderAux q).countP fun c => c.clades.isEmpty)
      = (q.map countLeavesC).sum := by
  induction q using levelOrderAux.induct with
  | case1 => simp [levelOrderAux]
  | case2 n b cs rest ih =>
      rw [levelOrderAux, List.countP_cons, ih]
      simp only [List.map_append, List.sum_append, List.map_cons,
        List.sum_cons, Clade.clades, countLeavesC_node]
      cases cs with
      | nil => simp; omega
      | cons c cs => simp; omega

theorem leafNamesOf_length (t : Clade) :
    (leafNamesOf t).length = countLeavesC t := by
  unfold leafNamesOf levelOrder
  rw [List.length_map, ← List.countP_eq_length_filter,
    levelOrderAux_leaf_count]
  simp

theorem pyIndex_get_nodup :
    ∀ (l : List (Option String)), l.Nodup → ∀ (i : Nat) (hi : i < l.length),
      pyIndex (l.get ⟨i, hi⟩) l = some i := by
  intro l
  induction l with
  | nil => intro _ i hi; exact absurd hi (by simp)
  | cons b l ih =>
      intro hn i hi
      cases i with
      | zero => simp [pyIndex]
      | succ j =>
          have hj : j < l.length := by simpa using hi
          have hmem : l.get ⟨j, hj⟩ ∈ l := l.get_mem _ _
          have hb : ¬ b = l.get ⟨j, hj⟩ := by
            intro he
            exact (List.nodup_cons.mp hn).1 (he ▸ hmem)
          have hg : (b :: l).get ⟨j + 1, hi⟩ = l.get ⟨j, hj⟩ := rfl
          rw [hg, pyIndex, if_neg hb, ih (List.nodup_cons.mp hn).2 j hj]
          rfl

theorem right_eq_left (t : Clade) :
    get_phylo_tree_traces "right" t = get_phylo_tree_traces "left" t := by
  have hct : coordTrace "right" = coordTrace "left" := by
    funext e
    unfold coordTrace
    rw [if_neg (by decide), if_neg (by decide)]
  unfold get_phylo_tree_traces
  rw [hct]

theorem flatMap_map_eq {α β γ : Type} (f : α → β) (g : β → List γ)
    (l : List α) :
    (l.map f).flatMap g = l.flatMap fun a => g (f a) := by
  induction l with
  | nil => rfl
  | cons a l ih => simp [ih]

theorem find_eraseP_uncl {u : Clade} (hu : isUncl u = true) :
    ∀ {pre : List Clade}, (∀ c ∈ pre, isUncl c = false) → ∀ (post : List Clade),
      (pre ++ u :: post).find? isUncl = some u
      ∧ (pre ++ u :: post).eraseP isUncl = pre ++ post := by
  intro pre
  induction pre with
  | nil =>
      intro _ post
      constructor
      · simp [List.find?_cons_of_pos, hu]
      · simp [List.eraseP_cons_of_pos, hu]
  | cons c pre ih =>
      intro hpre post
      have hc : isUncl c = false := hpre c (by simp)
      have ihp := ih (fun d hd => hpre d (by simp [hd])) post
      constructor
      · rw [List.cons_append, List.find?_cons_of_neg _ (by simp [hc])]
        exact ihp.1
      · rw [List.cons_append, List.eraseP_cons_of_neg (by simp [hc])]
        rw [List.cons_append, ihp.2]

theorem markerLabels_append (a b : List Primitive) :
    markerLabels (a ++ b) = markerLabels a ++ markerLabels b := by
  induction a with
  | nil => rfl
  | cons p ps ih => cases p <;> simp [markerLabels, ih]

theorem markerLabels_elbows (d rk : Rat) (rds : List (Rat × Rat)) :
    markerLabels (elbows d rk rds) = [] := by
  induction rds with
  | nil => rfl
  | cons rd rds ih =>
      have : elbows d rk (rd :: rds) =
          [Primitive.seg d rk d rd.1, Primitive.seg d rd.1 rd.2 rd.1]
            ++ elbows d rk rds := by
        simp [elbows]
      rw [this, markerLabels_append, ih, markerLabels, markerLabels,
        markerLabels]
      rfl


theorem markerLabels_cons_marker (d r : Rat) (l : Option String) (b : Bool)
    (ps : List Primitive) :
    markerLabels (.marker d r l b :: ps) = l :: markerLabels ps := by
  simp [markerLabels]

mutual
theorem specEmit_labels (d : Rat) (off : Nat) (c : Clade) :
    markerLabels (specEmit d off c).1 = preNames c := by
  match c with
  | .mk n b [] => simp [specEmit, preNames, preNamesL, markerLabels]
  | .mk n b (c0 :: cs) =>
      have h := specEmitChildren_labels d off (c0 :: cs)
      rw [specEmit]
      dsimp only
      rw [markerLabels_cons_marker, markerLabels_append, markerLabels_elbows,
        List.nil_append, h, preNames]
termination_by sizeOf c
theorem specEmitChildren_labels (d : Rat) (off : Nat) (l : List Clade) :
    markerLabels (specEmitChildren d off l).1 = preNamesL l := by
  match l with
  | [] => simp [specEmitChildren, preNamesL, markerLabels]
  | c :: cs =>
      have h1 := specEmit_labels (d + blOr1 c.branch_length) off c
      have h2 := specEmitChildren_labels d
        (off + (specEmit (d + blOr1 c.branch_length) off c).2.2) cs
      rw [specEmitChildren]
      dsimp only
      rw [markerLabels_append, h1, h2, preNamesL]
termination_by sizeOf l
end

/-! The claims. -/

/-- C1, counterexample: in the chain `(((A:1):2):4):0;` the claim's
cumulative depth of leaf A is 4 + 2 + 1 = 7, but the code never emits the
depth value 7 for this tree - its depth coordinates are per-edge (parent
branch length, and parent plus child branch length), not cumulative sums
from the root. -/
theorem phylo_c1_counterexample :
    specDepthsRoot T1 = [(none, 0), (none, 4), (none, 6), (some "A", 7)]
    ∧ get_phylo_tree_traces "right" T1 = some resT1
    ∧ ¬ (7 : Rat) ∈ resT1.xvals := by
  refine ⟨?_, eval_T1, ?_⟩
  · norm_num [specDepthsRoot, specDepthsFrom, specDepthsL, blOr1, T1, cladeA,
      Clade.name, Clade.clades, Clade.branch_length]
  · norm_num [resT1]

/-- C1 (amended): the depth values the code emits are per-edge, not
cumulative: every edge contributes the pair consisting of the parent's
branch length and the parent's plus the child's branch length, where a
missing branch length and an explicit 0 both count as 0 (not 1); the
root-side endpoint of a root edge is 0 exactly when the root's branch
length is missing or 0. -/
theorem phylo_c1_amended (t : Clade) (o : String) (res : PhyloResult)
    (h : get_phylo_tree_traces o t = some res) :
    res.xvals = (edgePairs t).flatMap (fun p =>
        [truthyBL p.1.branch_length,
         truthyBL p.1.branch_length + truthyBL p.2.branch_length])
    ∧ (truthyBL t.branch_length = 0 ↔
        t.branch_length = none ∨ t.branch_length = some 0) := by
  obtain ⟨es, hes, _, hx, _, _, _⟩ := get_eq_some h
  refine ⟨?_, ?_⟩
  · rw [hx]
    exact coordsList_xvals hes
  · cases hb : t.branch_length with
    | none => simp [truthyBL]
    | some v =>
        simp only [truthyBL]
        by_cases hv : v = 0
        · subst hv; simp
        · simp [hv]

/-- C1, witness of the amended theorem at the chain tree `T1`. -/
theorem phylo_c1_witness :
    resT1.xvals = (edgePairs T1).flatMap (fun p =>
        [truthyBL p.1.branch_length,
         truthyBL p.1.branch_length + truthyBL p.2.branch_length])
    ∧ (truthyBL T1.branch_length = 0 ↔
        T1.branch_length = none ∨ T1.branch_length = some 0) :=
  phylo_c1_amended T1 "right" resT1 eval_T1

/-- C2, counterexample: in `(A:1,B:2,C:3):0;` the root is an internal node
with three children; the code gives the unnamed root rank 0 while its
children get ranks 3, 2 and 1, whose mean is 2, and |0 - 2| exceeds the
1e-9 tolerance. -/
theorem phylo_c2_counterexample :
    get_phylo_tree_traces "right" T2 = some resT2
    ∧ yval (leafNamesOf T2) T2 = some 0
    ∧ yval (leafNamesOf T2) cladeA = some 3
    ∧ yval (leafNamesOf T2) cladeB = some 2
    ∧ yval (leafNamesOf T2) cladeC3 = some 1
    ∧ ratMean [3, 2, 1] = 2
    ∧ ¬ (|(0 : Rat) - 2| ≤ 1 / 1000000000) := by
  have h1 : pyTruthy (some "A") = true := by decide
  have h2 : pyTruthy (some "B") = true := by decide
  have h3 : pyTruthy (some "C") = true := by decide
  have h4 : pyTruthy (none : Option String) = false := by decide
  have h5 : pyIndex (some "A") [some "A", some "B", some "C"] = some 0 := by
    decide
  have h6 : pyIndex (some "B") [some "A", some "B", some "C"] = some 1 := by
    decide
  have h7 : pyIndex (some "C") [some "A", some "B", some "C"] = some 2 := by
    decide
  refine ⟨eval_T2, ?_, ?_, ?_, ?_, by norm_num [ratMean], by norm_num⟩ <;>
    norm_num [yval, leafNamesOf, levelOrder, levelOrderAux, T2, cladeA,
      cladeB, cladeC3, Clade.name, Clade.clades, h1, h2, h3, h4, h5, h6, h7]

/-- C2 (amended): a node's emitted rank does not depend on its children at
all: it is the leaf-count minus the first index of the node's name in the
level-order leaf-name list when the name is non-empty (and present), and 0
when the name is missing or empty; internal nodes are not centred on their
children. -/
theorem phylo_c2_amended (t : Clade) (o : String) (res : PhyloResult)
    (h : get_phylo_tree_traces o t = some res) :
    res.yvals = (edgePairs t).flatMap (fun p =>
        [rankFormula (leafNamesOf t) p.1.name,
         rankFormula (leafNamesOf t) p.2.name]) := by
  obtain ⟨es, hes, _, _, hy, _, _⟩ := get_eq_some h
  rw [hy]
  exact coordsList_yvals hes

/-- C2, witness of the amended theorem at the polytomous tree `T2`. -/
theorem phylo_c2_witness :
    resT2.yvals = (edgePairs T2).flatMap (fun p =>
        [rankFormula (leafNamesOf T2) p.1.name,
         rankFormula (leafNamesOf T2) p.2.name]) :=
  phylo_c2_amended T2 "right" resT2 eval_T2

theorem pyIndex_getElem_nodup :
    ∀ (l : List (Option String)), l.Nodup →
      ∀ (i : Nat) (a : Option String), l[i]? = some a →
        pyIndex a l = some i := by
  intro l
  induction l with
  | nil => intro _ i a ha; simp at ha
  | cons b l ih =>
      intro hn i a ha
      cases i with
      | zero =>
          simp only [List.getElem?_cons_zero, Option.some.injEq] at ha
          subst ha
          simp [pyIndex]
      | succ j =>
          simp only [List.getElem?_cons_succ] at ha
          have hmem : a ∈ l := List.getElem?_mem ha
          have hb : ¬ b = a := by
            intro he
            exact (List.nodup_cons.mp hn).1 (he ▸ hmem)
          rw [pyIndex, if_neg hb, ih (List.nodup_cons.mp hn).2 j a ha]
          rfl

/-- C3, counterexample: in `((A:1,B:1):1,C:1):0;` the code enumerates the
leaves in level order C, A, B, not in the depth-first order A, B, C the
claim requires, and the first depth-first leaf A gets rank 2, not 0. -/
theorem phylo_c3_counterexample :
    get_phylo_tree_traces "right" T3 = some resT3
    ∧ resT3.leaves = [some "C", some "A", some "B"]
    ∧ dfsLeafNames T3 = [some "A", some "B", some "C"]
    ∧ resT3.leaves ≠ dfsLeafNames T3
    ∧ yval (leafNamesOf T3) cladeA = some 2
    ∧ (2 : Rat) ≠ 0 := by
  have hd : dfsLeafNames T3 = [some "A", some "B", some "C"] := by
    simp [dfsLeafNames, dfsLeafL, T3]
  have h1 : pyTruthy (some "A") = true := by decide
  have h5 : pyIndex (some "A") [some "C", some "A", some "B"] = some 1 := by
    decide
  refine ⟨eval_T3, by decide, hd, ?_, ?_, by norm_num⟩
  · rw [hd]; decide
  · norm_num [yval, leafNamesOf, levelOrder, levelOrderAux, T3, cladeA,
      Clade.name, Clade.clades, h1, h5]

/-- C3 (amended): the code enumerates leaves in level (breadth-first) order,
and when the leaf names are distinct, the leaf whose name sits at 0-based
position i of that enumeration is assigned rank N - i, where N is the number
of leaves - ranks descend from N to 1 rather than ascending from 0. -/
theorem phylo_c3_amended (t : Clade) (o : String) (res : PhyloResult)
    (c : Clade) (i : Nat)
    (h : get_phylo_tree_traces o t = some res)
    (hnd : res.leaves.Nodup)
    (hc : res.leaves[i]? = some c.name)
    (ht : pyTruthy c.name = true) :
    res.leaves = leafNamesOf t
    ∧ yval (leafNamesOf t) c = some ((res.leaves.length : Rat) - (i : Rat)) := by
  obtain ⟨es, hes, _, _, _, _, hl⟩ := get_eq_some h
  rw [hl] at hnd hc
  refine ⟨hl, ?_⟩
  rw [yval, if_pos ht, pyIndex_getElem_nodup (leafNamesOf t) hnd i c.name hc,
    hl]
  rfl

/-- C3, witness of the amended theorem at `T3`: leaf A sits at position 1 of
the level-order enumeration C, A, B and receives rank 3 - 1 = 2. -/
theorem phylo_c3_witness :
    resT3.leaves = leafNamesOf T3
    ∧ yval (leafNamesOf T3) cladeA
        = some ((resT3.leaves.length : Rat) - ((1 : Nat) : Rat)) :=
  phylo_c3_amended T3 "right" resT3 cladeA 1 eval_T3 (by decide) (by decide)
    (by decide)

/-- C4, counterexample: for `(A:1,B:2,C:3):0;` the code emits exactly 3
primitives (one per edge), not the 10 the claim requires. -/
theorem phylo_c4_counterexample :
    get_phylo_tree_traces "right" T2 = some resT2
    ∧ resT2.trace_list.length = 3
    ∧ (3 : Nat) ≠ 10 :=
  ⟨eval_T2, by decide, by decide⟩

/-- C4 (amended): for `(A:1,B:2,C:3):0;` the code emits exactly 3 traces,
each a single two-point line; the child-side depth endpoints are A=1, B=2,
C=3 and the root-side endpoints are at depth 0 as claimed, but the leaf
ranks are A=3, B=2, C=1 (not 0, 1, 2), the root's rank is 0 (not 1), and no
markers are emitted. -/
theorem phylo_c4_amended :
    get_phylo_tree_traces "right" T2 = some resT2
    ∧ resT2.trace_list =
        [⟨[0, 3], [0, 1]⟩, ⟨[0, 2], [0, 2]⟩, ⟨[0, 1], [0, 3]⟩]
    ∧ resT2.xvals = [0, 1, 0, 2, 0, 3]
    ∧ resT2.yvals = [0, 3, 0, 2, 0, 1]
    ∧ resT2.leaves = [some "A", some "B", some "C"] :=
  ⟨eval_T2, rfl, rfl, rfl, rfl⟩

/-- C5, counterexample: for `(A:1,B:2,C:3):0;` the code emits one trace per
edge (3 in total, not 2 per edge), and the first trace joins (0, 0) to
(3, 1): both screen coordinates change along the single segment, so it is a
diagonal line, not a right-angle elbow. -/
theorem phylo_c5_counterexample :
    get_phylo_tree_traces "right" T2 = some resT2
    ∧ (edgePairs T2).length = 3
    ∧ resT2.trace_list.length = 3
    ∧ resT2.trace_list.length ≠ 2 * (edgePairs T2).length
    ∧ resT2.trace_list[0]? = some ⟨[0, 3], [0, 1]⟩
    ∧ (0 : Rat) ≠ 3 ∧ (0 : Rat) ≠ 1 := by
  have hep : (edgePairs T2).length = 3 := by
    simp [edgePairs, levelOrder, levelOrderAux, T2, cladeA, cladeB, cladeC3,
      Clade.clades]
  refine ⟨eval_T2, hep, by decide, ?_, by decide, by norm_num, by norm_num⟩
  rw [hep]
  decide

/-- C5 (amended): for every parent-child edge the emitter produces exactly
one trace - a single two-point segment joining the parent's (rank, depth
start) to the child's (rank, depth end) directly - so the number of traces
equals the number of edges and every trace has exactly two points. -/
theorem phylo_c5_amended (t : Clade) (o : String) (res : PhyloResult)
    (h : get_phylo_tree_traces o t = some res) :
    res.trace_list.length = (edgePairs t).length
    ∧ ∀ tr ∈ res.trace_list, tr.x.length = 2 ∧ tr.y.length = 2 := by
  obtain ⟨es, hes, htr, _, _, _, _⟩ := get_eq_some h
  constructor
  · rw [htr, List.length_map]
    exact coordsList_length hes
  · intro tr hmem
    rw [htr] at hmem
    obtain ⟨e, _, rfl⟩ := List.mem_map.mp hmem
    unfold coordTrace
    split <;> exact ⟨rfl, rfl⟩

/-- C5, witness of the amended theorem at `T2`. -/
theorem phylo_c5_witness :
    resT2.trace_list.length = (edgePairs T2).length
    ∧ ∀ tr ∈ resT2.trace_list, tr.x.length = 2 ∧ tr.y.length = 2 :=
  phylo_c5_amended T2 "right" resT2 eval_T2

/-- C6: the two leaf-name sequences the layout returns are identical in
length and order, and their length is exactly the number of terminal nodes
of the input tree; no pseudo-leaf is ever appended since no unclassified
handling exists in this code path. -/
theorem phylo_c6 (t : Clade) (o : String) (res : PhyloResult)
    (h : get_phylo_tree_traces o t = some res) :
    res.ordered_labels = res.leaves
    ∧ res.ordered_labels.length = countLeavesC t := by
  obtain ⟨es, hes, _, _, _, hol, hl⟩ := get_eq_some h
  rw [hol, hl, leafNamesOf_length]
  exact ⟨rfl, rfl⟩

/-- C6, witness at `T2`, whose 3 leaves give two identical sequences of
length 3. -/
theorem phylo_c6_witness :
    resT2.ordered_labels = resT2.leaves
    ∧ resT2.ordered_labels.length = countLeavesC T2 :=
  phylo_c6 T2 "right" resT2 eval_T2

/-- C7, counterexample: laying out `(A:1,B:2,C:3):0;` with orientation
"right" and "left" produces the very same result - the depth values (the
screen-y lists [0,1], [0,2], [0,3]) are identical, not sign-negated: the
value 1 would have to equal -1. -/
theorem phylo_c7_counterexample :
    get_phylo_tree_traces "right" T2 = some resT2
    ∧ get_phylo_tree_traces "left" T2 = some resT2
    ∧ resT2.trace_list.map Trace.y = [[0, 1], [0, 2], [0, 3]]
    ∧ (1 : Rat) ≠ -1 := by
  refine ⟨eval_T2, ?_, by decide, by norm_num⟩
  rw [← right_eq_left]
  exact eval_T2

/-- C7 (amended): orientations "right" and "left" yield identical layouts -
every depth and rank value is unchanged, none is negated; only the sign
table entries (which the trace emission never applies) are negated between
the two runs. -/
theorem phylo_c7_amended (t : Clade) :
    get_phylo_tree_traces "right" t = get_phylo_tree_traces "left" t
    ∧ sign_x "right" = -1 ∧ sign_x "left" = 1
    ∧ sign_y "right" = 1 ∧ sign_y "left" = -1 :=
  ⟨right_eq_left t, by decide, by decide, by decide, by decide⟩

/-- C8, counterexample: with orientation "right" (a left/right orientation)
the code places the rank pairs on the screen x-axis and the depth pairs
[0,1], [0,2], [0,3] on the screen y-axis - the opposite of the claimed
mapping. -/
theorem phylo_c8_counterexample :
    get_phylo_tree_traces "right" T2 = some resT2
    ∧ resT2.xvals = [0, 1, 0, 2, 0, 3]
    ∧ resT2.trace_list.map Trace.x = [[0, 3], [0, 2], [0, 1]]
    ∧ resT2.trace_list.map Trace.y = [[0, 1], [0, 2], [0, 3]]
    ∧ ([[0, 3], [0, 2], [0, 1]] : List (List Rat))
        ≠ [[0, 1], [0, 2], [0, 3]] :=
  ⟨eval_T2, rfl, by decide, by decide, by decide⟩

/-- C8 (amended): the axis mapping is the transpose of the claimed one: for
orientations "top" and "bottom" the depth values are placed on the screen
x-axis and the ranks on y, while for every other orientation (including
"left" and "right") the ranks go to the screen x-axis and the depths to y. -/
theorem phylo_c8_amended (t : Clade) (o : String) (res : PhyloResult)
    (h : get_phylo_tree_traces o t = some res) :
    ((o = "top" ∨ o = "bottom") →
        res.trace_list.flatMap Trace.x = res.xvals
        ∧ res.trace_list.flatMap Trace.y = res.yvals)
    ∧ (¬ (o = "top" ∨ o = "bottom") →
        res.trace_list.flatMap Trace.x = res.yvals
        ∧ res.trace_list.flatMap Trace.y = res.xvals) := by
  obtain ⟨es, hes, htr, hx, hy, _, _⟩ := get_eq_some h
  rw [htr, hx, hy, flatMap_map_eq, flatMap_map_eq]
  constructor
  · intro ho
    have hcx : ∀ e : EdgeCoords, (coordTrace o e).x = [e.x0, e.x1] := by
      intro e; unfold coordTrace; rw [if_pos ho]
    have hcy : ∀ e : EdgeCoords, (coordTrace o e).y = [e.y, e.ysub] := by
      intro e; unfold coordTrace; rw [if_pos ho]
    constructor
    · simp only [hcx]
    · simp only [hcy]
  · intro ho
    have hcx : ∀ e : EdgeCoords, (coordTrace o e).x = [e.y, e.ysub] := by
      intro e; unfold coordTrace; rw [if_neg ho]
    have hcy : ∀ e : EdgeCoords, (coordTrace o e).y = [e.x0, e.x1] := by
      intro e; unfold coordTrace; rw [if_neg ho]
    constructor
    · simp only [hcx]
    · simp only [hcy]

/-- C8, witness of the amended theorem at `T2` with orientation "right":
ranks on screen x, depths on screen y. -/
theorem phylo_c8_witness :
    resT2.trace_list.flatMap Trace.x = resT2.yvals
    ∧ resT2.trace_list.flatMap Trace.y = resT2.xvals :=
  (phylo_c8_amended T2 "right" resT2 eval_T2).2 (by decide)

/-- C9: if the root has a direct child named "unclassified" (the first such
child, with arbitrary siblings before and after it), preprocessing removes
it and splices its children onto the end of the root's child list in order;
the emitted primitives then consist of the main emission plus exactly one
extra marker for the unclassified node at rank equal to the root's rank
minus 1, with no branch segment added for it. Proved against the model of
the spec's preprocessor and emitter, which are absent from the source. -/
theorem phylo_c9 (root u : Clade) (pre post : List Clade)
    (hroot : root.clades = pre ++ u :: post)
    (hu : u.name = some "unclassified")
    (hpre : ∀ c ∈ pre, c.name ≠ some "unclassified")
    (hmain : some "unclassified" ∉ preNames (extractUnclassified root).1) :
    (extractUnclassified root).1.clades = pre ++ post ++ u.clades
    ∧ (specLayout root).1 = (specEmit 0 0 (extractUnclassified root).1).1
        ++ [Primitive.marker 0 ((specLayout root).2 - 1)
              (some "unclassified") true]
    ∧ (markerLabels (specLayout root).1).countP
        (fun l => l = some "unclassified") = 1 := by
  have hiu : isUncl u = true := by simp [isUncl, hu]
  have hpre2 : ∀ c ∈ pre, isUncl c = false := by
    intro c hc
    simp [isUncl, hpre c hc]
  obtain ⟨hf, he⟩ := find_eraseP_uncl hiu hpre2 post
  have hex : extractUnclassified root =
      (.mk root.name root.branch_length ((pre ++ post) ++ u.clades),
       some (.mk u.name u.branch_length [])) := by
    unfold extractUnclassified
    rw [hroot, hf]
    dsimp only
    rw [he]
  have hsl : specLayout root =
      ((specEmit 0 0 (extractUnclassified root).1).1
         ++ [.marker 0 ((specEmit 0 0 (extractUnclassified root).1).2.1 - 1)
               (some "unclassified") true],
       (specEmit 0 0 (extractUnclassified root).1).2.1) := by
    unfold specLayout
    rw [hex]
    dsimp only
    rw [hu]
    simp [Clade.name]
  refine ⟨?_, ?_, ?_⟩
  · rw [hex]
    simp [Clade.clades, List.append_assoc]
  · rw [hsl]
  · rw [hsl]
    dsimp only
    rw [markerLabels_append, specEmit_labels, List.countP_append]
    have h0 : (preNames (extractUnclassified root).1).countP
        (fun l => l = some "unclassified") = 0 := by
      apply List.countP_eq_zero.mpr
      intro a ha
      simp only [decide_eq_true_eq]
      intro hae
      exact hmain (hae ▸ ha)
    rw [h0, markerLabels_cons_marker]
    simp [markerLabels]

/-- C9, witness at a root with children A, B, unclassified where the
unclassified clade has children X and Y: the root's children become
A, B, X, Y and exactly one unclassified marker is appended. -/
theorem phylo_c9_witness :
    (extractUnclassified TUroot).1.clades
        = [cladeA, cladeB1] ++ [] ++ cladeU.clades
    ∧ (specLayout TUroot).1 = (specEmit 0 0 (extractUnclassified TUroot).1).1
        ++ [Primitive.marker 0 ((specLayout TUroot).2 - 1)
              (some "unclassified") true]
    ∧ (markerLabels (specLayout TUroot).1).countP
        (fun l => l = some "unclassified") = 1 :=
  phylo_c9 TUroot cladeU [cladeA, cladeB1] [] rfl rfl (by decide)
    (by
      have hx : (extractUnclassified TUroot).1
          = Clade.mk (some "root") none [cladeA, cladeB1, cladeX, cladeY] := by
        simp [extractUnclassified, TUroot, cladeU, isUncl, cladeA, cladeB1,
          Clade.name, Clade.clades, Clade.branch_length, List.find?,
          List.eraseP]
      rw [hx]
      simp [preNames, preNamesL, cladeA, cladeB1, cladeX, cladeY, Clade.name])

/-- C10: a clade whose name is missing (None) or empty is assigned rank 0 by
the layout's rank computation, whatever the leaf list and hence wherever the
clade sits in the tree; in particular every unnamed internal node, the root
included, is emitted at rank 0. -/
theorem phylo_c10 (leaves : List (Option String)) (c : Clade)
    (hc : c.name = none ∨ c.name = some "") :
    yval leaves c = some 0 := by
  rcases hc with hc | hc
  · simp [yval, pyTruthy, hc]
  · have he : ("").isEmpty = true := by decide
    simp [yval, pyTruthy, hc, he]

/-- C10, witness: an unnamed childless clade gets rank 0 against the leaf
list of `T2`. -/
theorem phylo_c10_witness :
    yval (leafNamesOf T2) (Clade.mk none none []) = some 0 :=
  phylo_c10 (leafNamesOf T2) (Clade.mk none none []) (Or.inl rfl)

/-- C7, witness of the amended theorem at `T2`. -/
theorem phylo_c7_witness :
    get_phylo_tree_traces "right" T2 = get_phylo_tree_traces "left" T2
    ∧ sign_x "right" = -1 ∧ sign_x "left" = 1
    ∧ sign_y "right" = 1 ∧ sign_y "left" = -1 :=
  phylo_c7_amended T2
